import Mathlib

/-!
Verification of the decision-orchestration core of the `htb-agent` repository
(`src/agent/main.py`, `src/agent/tools.py`).

The Python code is shallowly embedded: strings become `String`/`List Char`,
`json.loads` becomes an executable recursive-descent decoder over `JVal`,
Python dicts of decoded JSON become ordered association lists with
overwrite-on-duplicate insertion, tool wrappers and the two language-model
collaborators become explicit oracle parameters, and Python exceptions become
`Except` values.  State mutated across iterations (`discovered_services`,
`completed_actions`, `downloaded_files`) is threaded explicitly.
-/

/-! ## Python string primitives (over `List Char`) -/

/-- Whitespace set of Python `str.strip` (ASCII portion). -/
def pyIsSpace (c : Char) : Bool :=
  c = ' ' || c = '\t' || c = '\n' || c = '\r' || c = '\x0b' || c = '\x0c'

/-- Python `str.strip()`: drop leading and trailing whitespace. -/
def lcStrip (cs : List Char) : List Char :=
  ((cs.dropWhile pyIsSpace).reverse.dropWhile pyIsSpace).reverse

/-- Python `str.lower()` (ASCII letters). -/
def lcToLower (cs : List Char) : List Char := cs.map Char.toLower

/-- Python substring containment `pat in hay`. -/
def lcHasSub : List Char → List Char → Bool
  | [], pat => pat.isEmpty
  | hay@(_ :: t), pat => pat.isPrefixOf hay || lcHasSub t pat

/-- Index of the first occurrence of `pat` in `hay` (Python `str.find` on success). -/
def lcFindSub : List Char → List Char → Option Nat
  | [], pat => if pat.isEmpty then some 0 else none
  | hay@(_ :: t), pat =>
    if pat.isPrefixOf hay then some 0 else (lcFindSub t pat).map (· + 1)

/-- Python `str.find(ch)`: index of the first occurrence of a character, if any. -/
def lcFindCh : List Char → Char → Option Nat
  | [], _ => none
  | c :: t, ch => if c = ch then some 0 else (lcFindCh t ch).map (· + 1)

/-- Python `str.rfind(ch)`: index of the last occurrence of a character, if any. -/
def lcRfindCh (cs : List Char) (ch : Char) : Option Nat :=
  (lcFindCh cs.reverse ch).map (fun k => cs.length - 1 - k)

/-- Fuel-driven worker for `lcSplit`. -/
def lcSplitF : Nat → List Char → List Char → List (List Char)
  | 0, cs, _ => [cs]
  | fuel + 1, cs, sep =>
    match lcFindSub cs sep with
    | none => [cs]
    | some i => cs.take i :: lcSplitF fuel (cs.drop (i + sep.length)) sep

/-- Python `str.split(sep)` for a non-empty separator. -/
def lcSplit (cs sep : List Char) : List (List Char) := lcSplitF (cs.length + 1) cs sep

/-- Python no-argument `str.split()`: maximal runs of non-whitespace. -/
def lcSplitWs (cs : List Char) : List (List Char) :=
  (List.splitOnP pyIsSpace cs).filter (fun t => !t.isEmpty)

/-- Python slice `cs[i : j + 1]` for natural indices (`take` clamps like Python). -/
def pySliceToIncl (cs : List Char) (i j : Nat) : List Char := (cs.drop i).take (j + 1 - i)

/-! ## JSON values (the image of `json.loads`) -/

/-- A decoded JSON value, as produced by Python's `json.loads`.  Numbers keep
their source lexeme: no claim inspects numeric magnitude. -/
inductive JVal where
  | str (s : String)
  | num (lex : String)
  | bool (b : Bool)
  | null
  | arr (xs : List JVal)
  | obj (fs : List (String × JVal))

mutual

def JVal.beq : JVal → JVal → Bool
  | .str a, .str b => a == b
  | .num a, .num b => a == b
  | .bool a, .bool b => a == b
  | .null, .null => true
  | .arr a, .arr b => JVal.beqList a b
  | .obj a, .obj b => JVal.beqFields a b
  | _, _ => false

def JVal.beqList : List JVal → List JVal → Bool
  | [], [] => true
  | a :: as, b :: bs => JVal.beq a b && JVal.beqList as bs
  | _, _ => false

def JVal.beqFields : List (String × JVal) → List (String × JVal) → Bool
  | [], [] => true
  | (k, v) :: as, (k2, v2) :: bs => k == k2 && JVal.beq v v2 && JVal.beqFields as bs
  | _, _ => false

end

mutual

def JVal.beq_refl : ∀ a : JVal, JVal.beq a a = true
  | .str _ => by simp [JVal.beq]
  | .num _ => by simp [JVal.beq]
  | .bool _ => by simp [JVal.beq]
  | .null => by simp [JVal.beq]
  | .arr a => by simp [JVal.beq, JVal.beqList_refl a]
  | .obj a => by simp [JVal.beq, JVal.beqFields_refl a]

def JVal.beqList_refl : ∀ a : List JVal, JVal.beqList a a = true
  | [] => by simp [JVal.beqList]
  | a :: as => by simp [JVal.beqList, JVal.beq_refl a, JVal.beqList_refl as]

def JVal.beqFields_refl : ∀ a : List (String × JVal), JVal.beqFields a a = true
  | [] => by simp [JVal.beqFields]
  | (_, v) :: as => by simp [JVal.beqFields, JVal.beq_refl v, JVal.beqFields_refl as]

end

mutual

def JVal.eq_of_beq : ∀ {a b : JVal}, JVal.beq a b = true → a = b
  | .str _, .str _ => by simp [JVal.beq]
  | .num _, .num _ => by simp [JVal.beq]
  | .bool _, .bool _ => by simp [JVal.beq]
  | .null, .null => by simp
  | .arr a, .arr b => by
    intro h
    simp only [JVal.beq] at h
    exact congrArg JVal.arr (JVal.eqList_of_beq h)
  | .obj a, .obj b => by
    intro h
    simp only [JVal.beq] at h
    exact congrArg JVal.obj (JVal.eqFields_of_beq h)
  | .str _, .num _ => by simp [JVal.beq]
  | .str _, .bool _ => by simp [JVal.beq]
  | .str _, .null => by simp [JVal.beq]
  | .str _, .arr _ => by simp [JVal.beq]
  | .str _, .obj _ => by simp [JVal.beq]
  | .num _, .str _ => by simp [JVal.beq]
  | .num _, .bool _ => by simp [JVal.beq]
  | .num _, .null => by simp [JVal.beq]
  | .num _, .arr _ => by simp [JVal.beq]
  | .num _, .obj _ => by simp [JVal.beq]
  | .bool _, .str _ => by simp [JVal.beq]
  | .bool _, .num _ => by simp [JVal.beq]
  | .bool _, .null => by simp [JVal.beq]
  | .bool _, .arr _ => by simp [JVal.beq]
  | .bool _, .obj _ => by simp [JVal.beq]
  | .null, .str _ => by simp [JVal.beq]
  | .null, .num _ => by simp [JVal.beq]
  | .null, .bool _ => by simp [JVal.beq]
  | .null, .arr _ => by simp [JVal.beq]
  | .null, .obj _ => by simp [JVal.beq]
  | .arr _, .str _ => by simp [JVal.beq]
  | .arr _, .num _ => by simp [JVal.beq]
  | .arr _, .bool _ => by simp [JVal.beq]
  | .arr _, .null => by simp [JVal.beq]
  | .arr _, .obj _ => by simp [JVal.beq]
  | .obj _, .str _ => by simp [JVal.beq]
  | .obj _, .num _ => by simp [JVal.beq]
  | .obj _, .bool _ => by simp [JVal.beq]
  | .obj _, .null => by simp [JVal.beq]
  | .obj _, .arr _ => by simp [JVal.beq]

def JVal.eqList_of_beq : ∀ {a b : List JVal}, JVal.beqList a b = true → a = b
  | [], [] => by simp
  | a :: as, b :: bs => by
    intro h
    simp only [JVal.beqList, Bool.and_eq_true] at h
    rw [JVal.eq_of_beq h.1, JVal.eqList_of_beq h.2]
  | [], _ :: _ => by simp [JVal.beqList]
  | _ :: _, [] => by simp [JVal.beqList]

def JVal.eqFields_of_beq : ∀ {a b : List (String × JVal)}, JVal.beqFields a b = true → a = b
  | [], [] => by simp
  | (k, v) :: as, (k2, v2) :: bs => by
    intro h
    simp only [JVal.beqFields, Bool.and_eq_true] at h
    have h1 : k = k2 := by simpa using h.1.1
    rw [h1, JVal.eq_of_beq h.1.2, JVal.eqFields_of_beq h.2]
  | [], _ :: _ => by simp [JVal.beqFields]
  | _ :: _, [] => by simp [JVal.beqFields]

end

instance : DecidableEq JVal := fun a b =>
  if h : JVal.beq a b = true then isTrue (JVal.eq_of_beq h)
  else isFalse (fun he => h (he ▸ JVal.beq_refl a))

instance : BEq JVal := ⟨JVal.beq⟩

instance : LawfulBEq JVal where
  eq_of_beq := JVal.eq_of_beq
  rfl := JVal.beq_refl _

def exceptDecEq {ε α : Type} [DecidableEq ε] [DecidableEq α] : DecidableEq (Except ε α)
  | .error a, .error b =>
    if h : a = b then isTrue (by rw [h]) else isFalse (fun he => h (by injection he))
  | .ok a, .ok b =>
    if h : a = b then isTrue (by rw [h]) else isFalse (fun he => h (by injection he))
  | .error _, .ok _ => isFalse (fun he => by injection he)
  | .ok _, .error _ => isFalse (fun he => by injection he)

instance {ε α : Type} [DecidableEq ε] [DecidableEq α] : DecidableEq (Except ε α) := exceptDecEq

/-- A Python dict decoded from JSON: ordered key/value pairs, no duplicate keys. -/
def PyDict := List (String × JVal)

/-- Python dict assignment `d[k] = v`: overwrite in place, else append. -/
def dictInsert (fs : List (String × JVal)) (k : String) (v : JVal) : List (String × JVal) :=
  if fs.any (fun p => p.1 == k) then fs.map (fun p => if p.1 == k then (k, v) else p)
  else fs ++ [(k, v)]

/-- Python `d.get(k)`. -/
def dget (fs : List (String × JVal)) (k : String) : Option JVal :=
  (fs.find? (fun p => p.1 == k)).map (·.2)

/-- Python `k in d`. -/
def dcontains (fs : List (String × JVal)) (k : String) : Bool :=
  (fs.find? (fun p => p.1 == k)).isSome

/-- Python `d.get(k, default)`. -/
def dgetD (fs : List (String × JVal)) (k : String) (d : JVal) : JVal := (dget fs k).getD d

/-! ## `json.loads`, modelled as a recursive-descent decoder -/

/-- JSON whitespace (RFC 8259, as accepted by Python's `json`). -/
def jWs (c : Char) : Bool := c = ' ' || c = '\t' || c = '\n' || c = '\r'

def skipJWs (cs : List Char) : List Char := cs.dropWhile jWs

def isJDigit (c : Char) : Bool := '0' ≤ c && c ≤ '9'

def hexVal (c : Char) : Option Nat :=
  if '0' ≤ c && c ≤ '9' then some (c.toNat - 48)
  else if 'a' ≤ c && c ≤ 'f' then some (c.toNat - 87)
  else if 'A' ≤ c && c ≤ 'F' then some (c.toNat - 55)
  else none

/-- JSON string body after the opening quote: returns the decoded text and the
rest of the input.  Unescaped control characters are rejected (strict mode). -/
def parseJStringBody : Nat → List Char → List Char → Option (String × List Char)
  | 0, _, _ => none
  | _ + 1, _, [] => none
  | fuel + 1, acc, c :: rest =>
    if c = '"' then some (String.mk acc.reverse, rest)
    else if c = '\\' then
      match rest with
      | [] => none
      | e :: rest2 =>
        if e = '"' then parseJStringBody fuel ('"' :: acc) rest2
        else if e = '\\' then parseJStringBody fuel ('\\' :: acc) rest2
        else if e = '/' then parseJStringBody fuel ('/' :: acc) rest2
        else if e = 'b' then parseJStringBody fuel ('\x08' :: acc) rest2
        else if e = 'f' then parseJStringBody fuel ('\x0c' :: acc) rest2
        else if e = 'n' then parseJStringBody fuel ('\n' :: acc) rest2
        else if e = 'r' then parseJStringBody fuel ('\r' :: acc) rest2
        else if e = 't' then parseJStringBody fuel ('\t' :: acc) rest2
        else if e = 'u' then
          match rest2 with
          | h1 :: h2 :: h3 :: h4 :: rest3 =>
            match hexVal h1, hexVal h2, hexVal h3, hexVal h4 with
            | some a, some b, some c3, some d =>
              parseJStringBody fuel (Char.ofNat (((a * 16 + b) * 16 + c3) * 16 + d) :: acc) rest3
            | _, _, _, _ => none
          | _ => none
        else none
    else if c.toNat < 32 then none
    else parseJStringBody fuel (c :: acc) rest

/-- Fractional part `.digits`, or nothing. -/
def parseJFrac (cs : List Char) : Option (List Char × List Char) :=
  match cs with
  | '.' :: t =>
    match t.span isJDigit with
    | ([], _) => none
    | (ds, r) => some ('.' :: ds, r)
  | _ => some ([], cs)

/-- Exponent part `[eE][+-]?digits`, or nothing. -/
def parseJExp (cs : List Char) : Option (List Char × List Char) :=
  match cs with
  | c :: t =>
    if c = 'e' || c = 'E' then
      let (sgn, t2) := match t with
        | s :: t2 => if s = '+' || s = '-' then ([s], t2) else ([], t)
        | [] => ([], t)
      match t2.span isJDigit with
      | ([], _) => none
      | (ds, r) => some (c :: (sgn ++ ds), r)
    else some ([], cs)
  | [] => some ([], cs)

/-- JSON number token (lexeme kept verbatim). -/
def parseJNumber (cs0 : List Char) : Option (String × List Char) :=
  let (neg, cs1) := match cs0 with
    | '-' :: t => (['-'], t)
    | _ => (([] : List Char), cs0)
  match cs1 with
  | '0' :: t => do
    let (fr, r1) ← parseJFrac t
    let (ex, r2) ← parseJExp r1
    pure (String.mk (neg ++ '0' :: (fr ++ ex)), r2)
  | c :: t =>
    if isJDigit c then do
      let (ds, r0) := t.span isJDigit
      let (fr, r1) ← parseJFrac r0
      let (ex, r2) ← parseJExp r1
      pure (String.mk (neg ++ c :: (ds ++ fr ++ ex)), r2)
    else none
  | [] => none

mutual

/-- One JSON value (leading whitespace allowed), returning the rest of the input. -/
def parseJVal : Nat → List Char → Option (JVal × List Char)
  | 0, _ => none
  | fuel + 1, cs =>
    match skipJWs cs with
    | [] => none
    | c :: rest =>
      if c = '\x7b' then parseJObj fuel rest
      else if c = '[' then parseJArr fuel rest
      else if c = '"' then (parseJStringBody (rest.length + 1) [] rest).map (fun p => (.str p.1, p.2))
      else if c = 't' then
        match rest with
        | 'r' :: 'u' :: 'e' :: r => some (.bool true, r)
        | _ => none
      else if c = 'f' then
        match rest with
        | 'a' :: 'l' :: 's' :: 'e' :: r => some (.bool false, r)
        | _ => none
      else if c = 'n' then
        match rest with
        | 'u' :: 'l' :: 'l' :: r => some (.null, r)
        | _ => none
      else if c = 'N' then
        match rest with
        | 'a' :: 'N' :: r => some (.num "NaN", r)
        | _ => none
      else if c = 'I' then
        match rest with
        | 'n' :: 'f' :: 'i' :: 'n' :: 'i' :: 't' :: 'y' :: r => some (.num "Infinity", r)
        | _ => none
      else if c = '-' then
        match rest with
        | 'I' :: 'n' :: 'f' :: 'i' :: 'n' :: 'i' :: 't' :: 'y' :: r => some (.num "-Infinity", r)
        | _ => (parseJNumber (c :: rest)).map (fun p => (.num p.1, p.2))
      else (parseJNumber (c :: rest)).map (fun p => (.num p.1, p.2))

/-- Object members after the opening brace. -/
def parseJObj : Nat → List Char → Option (JVal × List Char)
  | 0, _ => none
  | fuel + 1, cs =>
    match skipJWs cs with
    | '\x7d' :: r => some (.obj [], r)
    | '"' :: r => do
      let (k, r1) ← parseJStringBody (r.length + 1) [] r
      match skipJWs r1 with
      | ':' :: r2 => do
        let (v, r3) ← parseJVal fuel r2
        parseJObjRest fuel (dictInsert [] k v) r3
      | _ => none
    | _ => none

/-- Remaining object members after one `key: value` pair has been read. -/
def parseJObjRest : Nat → List (String × JVal) → List Char → Option (JVal × List Char)
  | 0, _, _ => none
  | fuel + 1, acc, cs =>
    match skipJWs cs with
    | '\x7d' :: r => some (.obj acc, r)
    | ',' :: r =>
      match skipJWs r with
      | '"' :: r1 => do
        let (k, r2) ← parseJStringBody (r1.length + 1) [] r1
        match skipJWs r2 with
        | ':' :: r3 => do
          let (v, r4) ← parseJVal fuel r3
          parseJObjRest fuel (dictInsert acc k v) r4
        | _ => none
      | _ => none
    | _ => none

/-- Array elements after the opening bracket. -/
def parseJArr : Nat → List Char → Option (JVal × List Char)
  | 0, _ => none
  | fuel + 1, cs =>
    match skipJWs cs with
    | ']' :: r => some (.arr [], r)
    | _ => do
      let (v, r1) ← parseJVal fuel cs
      parseJArrRest fuel [v] r1

/-- Remaining array elements after at least one has been read. -/
def parseJArrRest : Nat → List JVal → List Char → Option (JVal × List Char)
  | 0, _, _ => none
  | fuel + 1, acc, cs =>
    match skipJWs cs with
    | ']' :: r => some (.arr acc.reverse, r)
    | ',' :: r => do
      let (v, r1) ← parseJVal fuel r
      parseJArrRest fuel (v :: acc) r1
    | _ => none

end

/-- Python `json.loads`: one JSON value, surrounding whitespace allowed,
nothing else; `none` models the `json.JSONDecodeError` raise. -/
def jsonLoadsL (cs : List Char) : Option JVal :=
  match parseJVal (cs.length + 1) cs with
  | some (v, rest) => if (skipJWs rest).isEmpty then some v else none
  | none => none

def jsonLoads (s : String) : Option JVal := jsonLoadsL s.data

/-! ## The decision parser (`reasoning_agent_analyze`, lines 257-276) -/

/-- Failure taxonomy of the decision parser: `ValueError` when no brace is
found (the spec's `NoJsonFound`), `json.JSONDecodeError` from `json.loads`
(the spec's `MalformedJson`). -/
inductive DecodeFailure where
  | noJsonFound
  | malformedJson
deriving DecidableEq

def fenceJson : List Char := "```json".data

def fenceBare : List Char := "```".data

/-- Markdown-fence removal of `reasoning_agent_analyze`:
`content.split("```json")[1].split("```")[0]`, or the bare-fence variant. -/
def deFence (cs : List Char) : List Char :=
  if lcHasSub cs fenceJson then
    (lcSplit ((lcSplit cs fenceJson).getD 1 []) fenceBare).getD 0 []
  else if lcHasSub cs fenceBare then
    (lcSplit ((lcSplit cs fenceBare).getD 1 []) fenceBare).getD 0 []
  else cs

/-- Brace location and slicing of `reasoning_agent_analyze`: strip, de-fence,
then slice from the first opening brace to the last closing brace; raise
`ValueError` (`NoJsonFound`) when either brace is absent. -/
def extractCore (raw : List Char) : Except DecodeFailure (List Char) :=
  let c := deFence (lcStrip raw)
  match lcFindCh c '\x7b', lcRfindCh c '\x7d' with
  | some i, some j => .ok (pySliceToIncl c i j)
  | _, _ => .error .noJsonFound

/-- The first-attempt decision parse: extraction followed by `json.loads`.
A successful load of a brace-delimited slice is always an object. -/
def decodeDecision (raw : String) : Except DecodeFailure (List (String × JVal)) :=
  match extractCore raw.data with
  | .error e => .error e
  | .ok slice =>
    match jsonLoadsL slice with
    | some (.obj fs) => .ok fs
    | some _ => .error .malformedJson
    | none => .error .malformedJson

/-- The retry parse (lines 324-331): strip and brace-slice only — note there is
no fence removal and no validation on this path; any failure falls through. -/
def retryParse (raw : String) : Option (List (String × JVal)) :=
  let c := lcStrip raw.data
  match lcFindCh c '\x7b', lcRfindCh c '\x7d' with
  | some i, some j =>
    match jsonLoadsL (pySliceToIncl c i j) with
    | some (.obj fs) => some fs
    | _ => none
  | _, _ => none

/-! ## Python exceptions of the embedded code -/

/-- The exceptions the embedded fragments can raise. -/
inductive PyExn where
  | attributeError (obj attr : String)
  | valueError (msg : String)
  | typeErrorJoin (idx : Nat)
  | typeErrorNotIterable
deriving DecidableEq

/-- `str(e)` for the exceptions above. -/
def pyExnMessage : PyExn → String
  | .attributeError o a => "\x27" ++ o ++ "\x27 object has no attribute \x27" ++ a ++ "\x27"
  | .valueError m => m
  | .typeErrorJoin i => "sequence item " ++ toString i ++ ": expected str instance, list found"
  | .typeErrorNotIterable => "object is not iterable"

/-! ## The decision validator (`reasoning_agent_analyze`, lines 279-303) -/

def correctionEnum : String :=
  "Download files from FTP (corrected from invalid enum4linux suggestion)"

def correctionSmb : String :=
  "Download files from FTP (corrected from invalid smbclient suggestion)"

/-- `.lower()` on a decoded JSON value: only strings have the attribute. -/
def pyLowerJ : JVal → Except PyExn String
  | .str s => .ok (String.mk (lcToLower s.data))
  | _ => .error (.attributeError "value" "lower")

/-- One step of the `discovered_services` merge:
`if service not in self.discovered_services: append(service)`. -/
def mergeOne (acc : List JVal) (x : JVal) : List JVal :=
  if acc.contains x then acc else acc ++ [x]

/-- `for service in decision["discovered_services"]: ...` — Python iteration:
lists yield elements, strings yield characters, dicts yield keys, anything
else raises `TypeError`. -/
def mergeServices (v : JVal) (svcs : List JVal) : Except PyExn (List JVal) :=
  match v with
  | .arr xs => .ok (xs.foldl mergeOne svcs)
  | .str s => .ok ((s.data.map (fun c => JVal.str (String.mk [c]))).foldl mergeOne svcs)
  | .obj fs => .ok ((fs.map (fun p => JVal.str p.1)).foldl mergeOne svcs)
  | _ => .error .typeErrorNotIterable

/-- One tool-to-service correction block (`if next_tool == TOOL and "ftp" in
target.lower(): ...`): short-circuiting, so `.lower()` is only evaluated — and
can only raise — when the tool name matches. -/
def corrStep (d : List (String × JVal)) (nt tg : JVal) (toolName msg : String) :
    Except PyExn (List (String × JVal)) :=
  if nt = JVal.str toolName then
    match pyLowerJ tg with
    | .error e => .error e
    | .ok tl =>
      .ok (if lcHasSub tl.data "ftp".data then
        dictInsert (dictInsert d "next_step" (.str "ftp")) "rationale" (.str msg)
      else d)
  else .ok d

/-- The validation applied to a first-attempt decision: required-field check,
tool-to-service correction rewriting, `discovered_services` merge.  Raised
exceptions propagate to `reasoning_agent_analyze`'s generic handler. -/
def validateDecision (d : List (String × JVal)) (svcs : List JVal) :
    Except PyExn (List (String × JVal) × List JVal) :=
  if dcontains d "next_step" = false then
    .error (.valueError "Missing required field: next_step")
  else
    let nt := dgetD d "next_step" (.str "")
    let tg := dgetD d "target" (.str "")
    match corrStep d nt tg "enum4linux" correctionEnum with
    | .error e => .error e
    | .ok d1 =>
      match corrStep d1 nt tg "smbclient" correctionSmb with
      | .error e => .error e
      | .ok d2 =>
        match dget d2 "discovered_services" with
        | some v =>
          match mergeServices v svcs with
          | .error e => .error e
          | .ok svcs2 => .ok (d2, svcs2)
        | none => .ok (d2, svcs)

/-! ## The fallback policy (`_create_fallback_decision`, lines 365-405) -/

/-- The deterministic fallback decision table. -/
def fallbackDecision (lastTool lastOutput : String) (downloaded : List String) :
    List (String × JVal) :=
  if lastTool = "nmap" && lcHasSub (lcToLower lastOutput.data) "flag.txt".data then
    [("understanding", .str "Fallback: FTP files detected"),
     ("next_step", .str "ftp"),
     ("rationale", .str "Download visible files from FTP"),
     ("target", .str "ftp:21"),
     ("status", .str "continue")]
  else if lastTool = "ftp" && downloaded.contains "flag.txt" then
    [("understanding", .str "Fallback: Files downloaded"),
     ("next_step", .str "cat"),
     ("rationale", .str "Read downloaded file contents"),
     ("target", .str "file:flag.txt"),
     ("status", .str "continue")]
  else if lastTool = "cat" then
    [("understanding", .str "Fallback: File contents read"),
     ("next_step", .str "complete"),
     ("rationale", .str "Enumeration complete"),
     ("target", .str "none"),
     ("status", .str "complete")]
  else
    [("understanding", .str "Fallback: Unable to determine next step"),
     ("next_step", .str "error"),
     ("rationale", .str "Reasoning failed"),
     ("target", .str "none"),
     ("status", .str "error")]

/-! ## The reasoning round (`reasoning_agent_analyze`) with its oracles -/

/-- A reply from the decision-source collaborator: either message content or a
raised exception. -/
inductive OllamaReply where
  | text (content : String)
  | raised (err : String)

/-- One full reasoning round: first parse attempt with validation; on a JSON
syntax error one retry parse without validation; every other failure falls
through to the fallback policy.  Returns the decision and the (possibly
merged) `discovered_services`. -/
def analyze (r1 r2 : OllamaReply) (toolUsed execResult : String)
    (svcs : List JVal) (downloaded : List String) : List (String × JVal) × List JVal :=
  match r1 with
  | .raised _ => (fallbackDecision toolUsed execResult downloaded, svcs)
  | .text c =>
    match decodeDecision c with
    | .ok d =>
      match validateDecision d svcs with
      | .ok r => r
      | .error _ => (fallbackDecision toolUsed execResult downloaded, svcs)
    | .error .noJsonFound => (fallbackDecision toolUsed execResult downloaded, svcs)
    | .error .malformedJson =>
      match r2 with
      | .raised _ => (fallbackDecision toolUsed execResult downloaded, svcs)
      | .text c2 =>
        match retryParse c2 with
        | some d => (d, svcs)
        | none => (fallbackDecision toolUsed execResult downloaded, svcs)

/-! ## The executor translator (`executor_agent_execute`, `_infer_tool_from_instruction`,
`_get_default_args`) -/

/-- Keyword-table inference (`_infer_tool_from_instruction`). -/
def inferTool (instruction : String) : String :=
  let il := lcToLower instruction.data
  if lcHasSub il "cat".data || lcHasSub il "read".data then "cat"
  else if lcHasSub il "nmap".data || lcHasSub il "initial".data || lcHasSub il "scan".data then "nmap"
  else if lcHasSub il "ftp".data then "ftp"
  else if lcHasSub il "gobuster".data then "gobuster"
  else if lcHasSub il "whatweb".data then "whatweb"
  else if lcHasSub il "nikto".data then "nikto"
  else if lcHasSub il "enum4linux".data then "enum4linux"
  else if lcHasSub il "smbclient".data then "smbclient"
  else if lcHasSub il "searchsploit".data then "searchsploit"
  else if lcHasSub il "nc".data || lcHasSub il "netcat".data then "nc"
  else "nmap"

/-- A tool argument: a string, or a nested command sequence (the shape the
executor prompt documents for the `ftp` tool). -/
inductive PyArg where
  | s (v : String)
  | lst (vs : List String)
deriving DecidableEq

/-- Default argument lists (`_get_default_args`). -/
def defaultArgs (tool target : String) : List PyArg :=
  if tool = "nmap" then [.s "-sV", .s "-sC", .s "-T4", .s target]
  else if tool = "ftp" then [.s target, .lst ["ls"], .s "anonymous", .s "anonymous"]
  else if tool = "cat" then [.s "flag.txt"]
  else if tool = "gobuster" then
    [.s "dir", .s "-u", .s ("http://" ++ target), .s "-w",
     .s "/usr/share/wordlists/dirb/common.txt", .s "-t", .s "50"]
  else if tool = "whatweb" then [.s "-a", .s "3", .s ("http://" ++ target)]
  else if tool = "nikto" then [.s "-h", .s target]
  else if tool = "enum4linux" then [.s "-a", .s target]
  else if tool = "smbclient" then [.s "-L", .s ("//" ++ target), .s "-N"]
  else if tool = "searchsploit" then [.s target]
  else if tool = "nc" then [.s "-nv", .s target, .s "80"]
  else [.s target]

/-- A reply from the execution-model collaborator: a structured tool call, plain
content with no call, or a raised exception. -/
inductive ExecResponse where
  | toolCall (name : String) (args : List PyArg)
  | noCall (content : String)
  | raised (err : String)

/-- The `ExecutionPlan` dict returned by `executor_agent_execute`. -/
structure Plan where
  tool : String
  args : List PyArg
  explanation : String
deriving DecidableEq

/-- `executor_agent_execute`: take the first structured tool call if present,
otherwise (or on exception) infer the tool from the instruction text and use
default arguments. -/
def executorAgent (resp : ExecResponse) (instruction target : String) : Plan :=
  match resp with
  | .toolCall n a => ⟨n, a, "Function calling: " ++ n⟩
  | .noCall _ =>
    let t := inferTool instruction
    ⟨t, defaultArgs t target, "Fallback execution"⟩
  | .raised e =>
    let t := inferTool instruction
    ⟨t, defaultArgs t target, "Error fallback: " ++ e⟩

/-! ## Python `repr`/`str` of strings and argument lists (for
`"get" in str(arguments).lower()` and the loop's f-string interpolation) -/

def hexDigitCh (n : Nat) : Char :=
  if n < 10 then Char.ofNat (48 + n) else Char.ofNat (87 + n)

/-- One character inside `repr` of a string, given the chosen quote. -/
def pyEscapeChar (q : Char) (c : Char) : List Char :=
  if c = '\\' then ['\\', '\\']
  else if c = q then ['\\', q]
  else if c = '\n' then ['\\', 'n']
  else if c = '\r' then ['\\', 'r']
  else if c = '\t' then ['\\', 't']
  else if c.toNat < 32 || c.toNat = 127 then
    ['\\', 'x', hexDigitCh (c.toNat / 16), hexDigitCh (c.toNat % 16)]
  else [c]

/-- Python `repr` of a string: single-quoted unless the text holds a single
quote and no double quote. -/
def pyReprStr (s : String) : String :=
  let q : Char := if s.data.contains '\x27' && !(s.data.contains '"') then '"' else '\x27'
  String.mk (q :: (s.data.flatMap (pyEscapeChar q) ++ [q]))

/-- Python `repr` of one argument (`str` of a list uses `repr` of elements). -/
def pyReprArg : PyArg → String
  | .s v => pyReprStr v
  | .lst vs => "[" ++ String.intercalate ", " (vs.map pyReprStr) ++ "]"

/-- Python `str(arguments)` for the argument list. -/
def pyStrArgList (args : List PyArg) : String :=
  "[" ++ String.intercalate ", " (args.map pyReprArg) ++ "]"

mutual

/-- Python `repr` of a decoded JSON value. -/
def pyReprJVal : JVal → String
  | .str s => pyReprStr s
  | .num l => l
  | .bool b => if b then "True" else "False"
  | .null => "None"
  | .arr xs => "[" ++ pyReprJList xs ++ "]"
  | .obj fs => "\x7b" ++ pyReprJFields fs ++ "\x7d"

def pyReprJList : List JVal → String
  | [] => ""
  | [x] => pyReprJVal x
  | x :: t => pyReprJVal x ++ ", " ++ pyReprJList t

def pyReprJFields : List (String × JVal) → String
  | [] => ""
  | [(k, v)] => pyReprStr k ++ ": " ++ pyReprJVal v
  | (k, v) :: t => pyReprStr k ++ ": " ++ pyReprJVal v ++ ", " ++ pyReprJFields t

end

/-- Python `str` of a decoded JSON value (top-level strings unquoted). -/
def pyStrJVal : JVal → String
  | .str s => s
  | v => pyReprJVal v

/-- f-string interpolation of `decision.get(k)` (absent key prints `None`). -/
def fstrOpt : Option JVal → String
  | none => "None"
  | some v => pyStrJVal v

/-- f-string interpolation of `decision.get(k, "")`. -/
def fstrOptD : Option JVal → String
  | none => ""
  | some v => pyStrJVal v

/-! ## The tool layer (`tools.py` wrappers behind `execute_tool`) -/

/-- The result dict of `PentestingTools.run_command` (which catches every
exception itself and never raises). -/
structure RunRes where
  success : Bool
  output : String
  error : String

/-- `' '.join(items)`: fails with `TypeError` at the first non-string item. -/
def pyJoinSpAux : Nat → List PyArg → Except PyExn (List String)
  | _, [] => .ok []
  | i, .s v :: t => do
    let r ← pyJoinSpAux (i + 1) t
    pure (v :: r)
  | i, .lst _ :: _ => .error (.typeErrorJoin i)

def pyJoinSp (items : List PyArg) : Except PyExn String :=
  (pyJoinSpAux 0 items).map (String.intercalate " ")

/-- The string arguments of a list all of whose members are strings. -/
def argStrings (args : List PyArg) : List String :=
  args.filterMap (fun a => match a with | .s v => some v | .lst _ => none)

/-- A `tools.py` wrapper (`nmap`, `ftp`, ...): build `[prog] + args`, print the
joined command (`' '.join` raises `TypeError` on a nested list), run it, and
render a failure as an `"Error: ..."` string. -/
def toolWrapper (runner : List String → RunRes) (prog : String) (args : List PyArg) :
    Except PyExn String := do
  let _ ← pyJoinSp (.s prog :: args)
  let r := runner (prog :: argStrings args)
  pure (if r.success then r.output else "Error: " ++ r.error)

/-- The subprocess-wrapper methods `PentestingTools` actually defines
(`tools.py` has no `cat`). -/
def pentestingToolsMethods : List String :=
  ["nmap", "gobuster", "whatweb", "nikto", "enum4linux", "smbclient",
   "ftp", "ssh", "hydra", "searchsploit", "nc"]

/-- Attribute lookup on the tools object: an attribute name either resolves to
a callable wrapper or raises `AttributeError`. -/
def ToolSurface := String → Option (List PyArg → Except PyExn String)

/-- The attribute surface of the real `PentestingTools` instance. -/
def realTools (runner : List String → RunRes) : ToolSurface :=
  fun attr =>
    if pentestingToolsMethods.contains attr then some (toolWrapper runner attr) else none

/-- Modelled from the spec: `execute_tool`'s `tool_map` names a `cat` wrapper
(the spec's file-read tool, section 6) that `tools.py` does not define; this
stub stands in for that missing wrapper wherever the surrounding logic is
exercised independently of the missing method. -/
def catStub : List PyArg → Except PyExn String := fun _ => .ok ""

/-- The real tools surface with the missing `cat` attribute stubbed in. -/
def patchedTools (runner : List String → RunRes) : ToolSurface :=
  fun attr => if attr = "cat" then some catStub else realTools runner attr

/-- The keys of `execute_tool`'s `tool_map`, in source order; building the dict
literal evaluates `self.tools.<attr>` for each value in this order. -/
def toolMapKeys : List String :=
  ["nmap", "ftp", "cat", "gobuster", "whatweb", "nikto", "enum4linux",
   "smbclient", "searchsploit", "nc"]

/-- Evaluation of the `tool_map` dict literal: each value is an attribute
access on the tools object, and the first missing attribute raises. -/
def resolveToolMap (tools : ToolSurface) :
    Except PyExn (List (String × (List PyArg → Except PyExn String))) :=
  toolMapKeys.mapM (fun k =>
    match tools k with
    | some f => Except.ok (k, f)
    | none => Except.error (.attributeError "PentestingTools" k))

/-- `cmd.split()[-1] if len(cmd.split()) > 1 else "unknown"`. -/
def getFilename (cmd : String) : String :=
  let toks := lcSplitWs cmd.data
  if 1 < toks.length then String.mk (toks.getLastD []) else "unknown"

/-- The `downloaded_files` tracking of `execute_tool` (lines 500-506): every
command in a nested list that contains `"get"` contributes its filename,
appended only when absent. -/
def trackDownloads (args : List PyArg) (downloaded : List String) : List String :=
  args.foldl (fun acc a =>
    match a with
    | .lst cmds =>
      cmds.foldl (fun acc2 cmd =>
        if lcHasSub (lcToLower cmd.data) "get".data then
          let fn := getFilename cmd
          if acc2.contains fn then acc2 else acc2 ++ [fn]
        else acc2) acc
    | .s _ => acc) downloaded

/-- `execute_tool`: build `tool_map` (attribute accesses may raise), reject
unknown names with an inline error string, call the wrapper with exceptions
converted to an error string, and track `ftp` downloads.  The returned pair is
the result string and the updated `downloaded_files`. -/
def executeTool (tools : ToolSurface) (name : String) (args : List PyArg)
    (downloaded : List String) : Except PyExn (String × List String) :=
  match resolveToolMap tools with
  | .error e => .error e
  | .ok tm =>
    match tm.find? (fun p => p.1 == name) with
    | none => .ok ("Error: Unknown tool \x27" ++ name ++ "\x27", downloaded)
    | some (_, f) =>
      match f args with
      | .error e => .ok ("Error executing " ++ name ++ ": " ++ pyExnMessage e, downloaded)
      | .ok out =>
        let downloaded2 :=
          if name = "ftp" && lcHasSub (lcToLower (pyStrArgList args).data) "get".data then
            trackDownloads args downloaded
          else downloaded
        .ok (out, downloaded2)

/-! ## The orchestration loop (`HTBAgent.run`) -/

/-- One record of `completed_actions`. -/
structure ActionRec where
  iteration : Nat
  tool : String
  args : List PyArg
deriving DecidableEq

/-- The `EnumerationState` plus the loop's local `result`/`tool` variables and
a flag marking that a terminal `break` has occurred. -/
structure AgentState where
  services : List JVal
  completed : List ActionRec
  downloaded : List String
  lastResult : String
  lastTool : String
  finished : Bool
deriving DecidableEq

/-- The run's external collaborators: the target address, the execution model's
reply for each iteration, the reasoning model's (first, retry) replies for each
iteration, and the tools object's attribute surface. -/
structure Oracles where
  target : String
  execResp : Nat → ExecResponse
  reasonResp : Nat → OllamaReply × OllamaReply
  tools : ToolSurface

/-- The fixed iteration-0 instruction of `run`. -/
def initInstruction : String :=
  "Perform initial nmap scan with service version detection and default scripts"

/-- The iteration-0 service parsing of `run` (lines 560-563): if the result
mentions `open`, append every `/tcp` or `/udp` line, stripped, with no
duplicate suppression. -/
def parseServices (result : String) : List JVal :=
  if lcHasSub (lcToLower result.data) "open".data then
    (lcSplit result.data "\n".data).foldl (fun acc line =>
      if lcHasSub line "/tcp".data || lcHasSub line "/udp".data then
        acc ++ [JVal.str (String.mk (lcStrip line))]
      else acc) []
  else []

/-- Iteration 0 of `run`: one executor round on the fixed nmap instruction,
one tool execution, one completed-action record, service parsing. -/
def runInit (o : Oracles) : Except PyExn AgentState :=
  let plan := executorAgent (o.execResp 0) initInstruction o.target
  match executeTool o.tools plan.tool plan.args [] with
  | .error e => .error e
  | .ok (result, dl) =>
    .ok { services := parseServices result,
          completed := [⟨0, plan.tool, plan.args⟩],
          downloaded := dl,
          lastResult := result,
          lastTool := plan.tool,
          finished := false }

/-- One main-loop iteration of `run` (`for iteration in range(1, 26)`): a
reasoning round, terminal-status checks, an executor round, and a guarded tool
execution with a completed-action record. -/
def loopStep (o : Oracles) (i : Nat) (st : AgentState) : Except PyExn AgentState :=
  if st.finished || i = 0 || 25 < i then .ok st
  else
    let rr := o.reasonResp i
    let dec := analyze rr.1 rr.2 st.lastTool st.lastResult st.services st.downloaded
    let st1 := { st with services := dec.2 }
    if dget dec.1 "status" = some (JVal.str "complete") then .ok { st1 with finished := true }
    else if dget dec.1 "status" = some (JVal.str "error") then .ok { st1 with finished := true }
    else
      let instruction := "Execute " ++ fstrOpt (dget dec.1 "next_step") ++ " for " ++
        fstrOpt (dget dec.1 "target") ++ ". " ++ fstrOptD (dget dec.1 "rationale")
      let plan := executorAgent (o.execResp i) instruction o.target
      if plan.tool = "" || plan.tool = "error" then
        .ok { st1 with lastResult := "Error in execution", lastTool := plan.tool }
      else
        match executeTool o.tools plan.tool plan.args st1.downloaded with
        | .error e => .error e
        | .ok (result, dl) =>
          .ok { st1 with completed := st1.completed ++ [⟨i, plan.tool, plan.args⟩],
                         downloaded := dl,
                         lastResult := result,
                         lastTool := plan.tool }

/-- The run after `n` main-loop iterations (`runN o 0` is iteration 0). -/
def runN (o : Oracles) : Nat → Except PyExn AgentState
  | 0 => runInit o
  | n + 1 =>
    match runN o n with
    | .error e => .error e
    | .ok st => loopStep o (n + 1) st

/-! ## Predicates used by the claim statements -/

/-- `b` extends `a`: entries are only ever appended, nothing is removed or
mutated (`a` is a prefix of `b`). -/
def listGrows {α : Type} (a b : List α) : Prop := ∃ t, b = a ++ t

/-- The input text has an opening brace later followed by a closing brace. -/
def hasOrderedBracePair (cs : List Char) : Bool :=
  match lcFindCh cs '\x7b' with
  | none => false
  | some i => (cs.drop (i + 1)).contains '\x7d'

/-- A string that is exactly one well-formed JSON object: it decodes as an
object and carries no padding around the braces. -/
def isTightJsonObjectL (cs : List Char) : Bool :=
  cs.head? = some '\x7b' && cs.getLast? = some '\x7d' &&
    (match jsonLoadsL cs with | some (.obj _) => true | _ => false)

/-- Every contiguous substring of the text that is a well-formed JSON object
(used to state that a text contains exactly one such object). -/
def tightObjectSubstrings (cs : List Char) : List (List Char) :=
  (List.range (cs.length + 1)).flatMap (fun i =>
    (List.range (cs.length + 1)).filterMap (fun j =>
      let sub := (cs.drop i).take (j - i)
      if i < j ∧ isTightJsonObjectL sub then some sub else none))

/-! ## Growth lemmas -/

theorem listGrows_refl {α : Type} (a : List α) : listGrows a a := ⟨[], by simp⟩

theorem listGrows_trans {α : Type} {a b c : List α}
    (h1 : listGrows a b) (h2 : listGrows b c) : listGrows a c := by
  obtain ⟨t1, rfl⟩ := h1
  obtain ⟨t2, rfl⟩ := h2
  exact ⟨t1 ++ t2, by simp⟩

theorem listGrows_append {α : Type} (a t : List α) : listGrows a (a ++ t) := ⟨t, rfl⟩

theorem foldl_listGrows {α β : Type} (f : List α → β → List α)
    (hf : ∀ acc x, listGrows acc (f acc x)) :
    ∀ (xs : List β) (acc : List α), listGrows acc (xs.foldl f acc) := by
  intro xs
  induction xs with
  | nil => intro acc; exact listGrows_refl acc
  | cons x t ih =>
    intro acc
    exact listGrows_trans (hf acc x) (ih (f acc x))

theorem mergeOne_grows (acc : List JVal) (x : JVal) : listGrows acc (mergeOne acc x) := by
  unfold mergeOne
  split
  · exact listGrows_refl acc
  · exact listGrows_append acc [x]

theorem mergeServices_grows {v : JVal} {svcs r : List JVal}
    (h : mergeServices v svcs = .ok r) : listGrows svcs r := by
  unfold mergeServices at h
  split at h <;> simp_all <;> subst h <;> exact foldl_listGrows _ mergeOne_grows _ _

theorem validateDecision_grows {d : List (String × JVal)} {svcs : List JVal}
    {d2 : List (String × JVal)} {s2 : List JVal}
    (h : validateDecision d svcs = .ok (d2, s2)) : listGrows svcs s2 := by
  unfold validateDecision at h
  dsimp only at h
  split at h
  · exact absurd h (by simp)
  · split at h
    · exact absurd h (by simp)
    · split at h
      · exact absurd h (by simp)
      · split at h
        · split at h
          · exact absurd h (by simp)
          · rename_i hm
            injection h with h
            injection h with _ h
            subst h
            exact mergeServices_grows hm
        · injection h with h
          injection h with _ h
          subst h
          exact listGrows_refl svcs

theorem analyze_grows (r1 r2 : OllamaReply) (toolUsed execResult : String)
    (svcs : List JVal) (downloaded : List String) :
    listGrows svcs (analyze r1 r2 toolUsed execResult svcs downloaded).2 := by
  unfold analyze
  split
  · exact listGrows_refl svcs
  · split
    · split
      · rename_i d r hv
        cases r with
        | mk rd rs => exact validateDecision_grows hv
      · exact listGrows_refl svcs
    · exact listGrows_refl svcs
    · split
      · exact listGrows_refl svcs
      · split
        · exact listGrows_refl svcs
        · exact listGrows_refl svcs

theorem trackDownloads_grows (args : List PyArg) (dl : List String) :
    listGrows dl (trackDownloads args dl) := by
  unfold trackDownloads
  apply foldl_listGrows
  intro acc a
  match a with
  | .s v => exact listGrows_refl acc
  | .lst cmds =>
    simp only
    apply foldl_listGrows
    intro acc2 cmd
    split
    · split
      · exact listGrows_refl acc2
      · exact listGrows_append acc2 _
    · exact listGrows_refl acc2

theorem executeTool_grows {tools : ToolSurface} {name : String} {args : List PyArg}
    {dl : List String} {out : String} {dl2 : List String}
    (h : executeTool tools name args dl = .ok (out, dl2)) : listGrows dl dl2 := by
  unfold executeTool at h
  split at h
  · exact absurd h (by simp)
  · split at h
    · injection h with h
      injection h with _ h
      subst h
      exact listGrows_refl dl
    · split at h
      · injection h with h
        injection h with _ h
        subst h
        exact listGrows_refl dl
      · injection h with h
        injection h with _ h
        subst h
        split
        · exact trackDownloads_grows args dl
        · exact listGrows_refl dl

theorem loopStep_grows {o : Oracles} {i : Nat} {st st2 : AgentState}
    (h : loopStep o i st = .ok st2) :
    listGrows st.services st2.services ∧ listGrows st.completed st2.completed ∧
      listGrows st.downloaded st2.downloaded := by
  unfold loopStep at h
  dsimp only at h
  split at h
  · injection h with h
    subst h
    exact ⟨listGrows_refl _, listGrows_refl _, listGrows_refl _⟩
  · split at h
    · injection h with h
      subst h
      exact ⟨analyze_grows _ _ _ _ _ _, listGrows_refl _, listGrows_refl _⟩
    · split at h
      · injection h with h
        subst h
        exact ⟨analyze_grows _ _ _ _ _ _, listGrows_refl _, listGrows_refl _⟩
      · split at h
        · injection h with h
          subst h
          exact ⟨analyze_grows _ _ _ _ _ _, listGrows_refl _, listGrows_refl _⟩
        · split at h
          · exact absurd h (by simp)
          · rename_i result dl hex
            injection h with h
            subst h
            exact ⟨analyze_grows _ _ _ _ _ _, listGrows_append _ _, executeTool_grows hex⟩

theorem runN_ok_of_succ {o : Oracles} {n : Nat} {st : AgentState}
    (h : runN o (n + 1) = .ok st) :
    ∃ st0, runN o n = .ok st0 ∧ loopStep o (n + 1) st0 = .ok st := by
  unfold runN at h
  split at h
  · exact absurd h (by simp)
  · rename_i st0 h0
    exact ⟨st0, h0, h⟩

/-- C9: EnumerationState is monotonic across any sequence of loop iterations:
`discovered_services`, `completed_actions` and `downloaded_files` only ever
receive appended entries, so the state at iteration `n` is a prefix of the
state at any later iteration `m`, for every behavior of the external
collaborators. -/
theorem enumerationState_monotone : ∀ (o : Oracles) (n m : Nat) (sn sm : AgentState),
    n ≤ m → runN o n = .ok sn → runN o m = .ok sm →
    listGrows sn.services sm.services ∧ listGrows sn.completed sm.completed ∧
      listGrows sn.downloaded sm.downloaded := by
  intro o n m
  induction m with
  | zero =>
    intro sn sm hle h1 h2
    have hn : n = 0 := Nat.le_zero.mp hle
    subst hn
    rw [h1] at h2
    injection h2 with h2
    subst h2
    exact ⟨listGrows_refl _, listGrows_refl _, listGrows_refl _⟩
  | succ m ih =>
    intro sn sm hle h1 h2
    rcases Nat.eq_or_lt_of_le hle with heq | hlt
    · subst heq
      rw [h1] at h2
      injection h2 with h2
      subst h2
      exact ⟨listGrows_refl _, listGrows_refl _, listGrows_refl _⟩
    · obtain ⟨st0, h0, hstep⟩ := runN_ok_of_succ h2
      obtain ⟨g1, g2, g3⟩ := ih sn st0 (Nat.lt_succ_iff.mp hlt) h1 h0
      obtain ⟨s1, s2, s3⟩ := loopStep_grows hstep
      exact ⟨listGrows_trans g1 s1, listGrows_trans g2 s2, listGrows_trans g3 s3⟩

/-- C5: the fallback decision function is total: for every last tool name,
output text and downloaded-files list it returns a decision carrying
`next_step`, `rationale`, `target`, `understanding`, and a `status` that is one
of `continue`, `complete`, `error`; being a total Lean function, it raises
nothing. -/
theorem fallbackDecision_total : ∀ (lastTool lastOutput : String) (dl : List String),
    (dget (fallbackDecision lastTool lastOutput dl) "next_step").isSome = true ∧
    (dget (fallbackDecision lastTool lastOutput dl) "rationale").isSome = true ∧
    (dget (fallbackDecision lastTool lastOutput dl) "target").isSome = true ∧
    (dget (fallbackDecision lastTool lastOutput dl) "understanding").isSome = true ∧
    (dget (fallbackDecision lastTool lastOutput dl) "status" = some (.str "continue") ∨
     dget (fallbackDecision lastTool lastOutput dl) "status" = some (.str "complete") ∨
     dget (fallbackDecision lastTool lastOutput dl) "status" = some (.str "error")) := by
  intro lastTool lastOutput dl
  unfold fallbackDecision
  split
  · exact ⟨by decide, by decide, by decide, by decide, Or.inl (by decide)⟩
  · split
    · exact ⟨by decide, by decide, by decide, by decide, Or.inl (by decide)⟩
    · split
      · exact ⟨by decide, by decide, by decide, by decide, Or.inr (Or.inl (by decide))⟩
      · exact ⟨by decide, by decide, by decide, by decide, Or.inr (Or.inr (by decide))⟩

/-- C1: evidence for the code bug.  `execute_tool` builds `tool_map` by
evaluating `self.tools.cat` among the dict values, but `PentestingTools`
defines no `cat` method, so every call — any tool name, any argument list —
raises `AttributeError` before the unknown-tool check and before the
`try` block, instead of returning a string. -/
theorem executeTool_always_raises : ∀ (runner : List String → RunRes) (name : String)
    (args : List PyArg) (dl : List String),
    executeTool (realTools runner) name args dl =
      .error (.attributeError "PentestingTools" "cat") := by
  intro runner name args dl
  rfl

/-! ## Dictionary lemmas -/

theorem dget_some_dcontains {fs : List (String × JVal)} {k : String} {v : JVal}
    (h : dget fs k = some v) : dcontains fs k = true := by
  unfold dget at h
  unfold dcontains
  cases hf : fs.find? (fun p => p.1 == k) with
  | none => rw [hf] at h; exact absurd h (by simp)
  | some p => simp

theorem string_mk_data (l : List Char) : (String.mk l).data = l := rfl

theorem pyLowerJ_str (s : String) :
    pyLowerJ (JVal.str s) = .ok (String.mk (lcToLower s.data)) := rfl

theorem find?_map_corr (fs : List (String × JVal)) (k : String) (v : JVal)
    (hany : fs.any (fun p => p.1 == k) = true) :
    (fs.map (fun p => if p.1 == k then (k, v) else p)).find? (fun p => p.1 == k) =
      some (k, v) := by
  induction fs with
  | nil => simp at hany
  | cons p t ih =>
    by_cases hp : (p.1 == k) = true
    · rw [List.map_cons, if_pos hp]
      exact List.find?_cons_of_pos _ (by simp)
    · have hp2 : (p.1 == k) = false := by simpa using hp
      rw [List.map_cons, if_neg (by simp [hp2])]
      rw [List.find?_cons_of_neg _ (by simp [hp2])]
      apply ih
      simpa [List.any_cons, hp2] using hany

theorem find?_map_corr_ne (fs : List (String × JVal)) (k k2 : String) (v : JVal)
    (h : ¬ k2 = k) :
    (fs.map (fun p => if p.1 == k then (k, v) else p)).find? (fun p => p.1 == k2) =
      fs.find? (fun p => p.1 == k2) := by
  induction fs with
  | nil => simp
  | cons p t ih =>
    by_cases hp : (p.1 == k) = true
    · have hpk : p.1 = k := by simpa using hp
      have hne : (k == k2) = false := by
        simp only [beq_eq_false_iff_ne]
        intro hc
        exact h hc.symm
      rw [List.map_cons, if_pos hp]
      rw [List.find?_cons_of_neg _ (by simp; intro hc; exact h hc.symm)]
      rw [List.find?_cons_of_neg _ (by rw [hpk]; simp; intro hc; exact h hc.symm)]
      exact ih
    · rw [List.map_cons, if_neg (by simp [(by simpa using hp : (p.1 == k) = false)])]
      by_cases hq : (p.1 == k2) = true
      · rw [@List.find?_cons_of_pos _ (fun q => q.1 == k2) p _ hq,
          @List.find?_cons_of_pos _ (fun q => q.1 == k2) p _ hq]
      · rw [@List.find?_cons_of_neg _ (fun q => q.1 == k2) p _ (by simpa using hq),
          @List.find?_cons_of_neg _ (fun q => q.1 == k2) p _ (by simpa using hq)]
        exact ih

theorem find?_append_new (fs : List (String × JVal)) (k k2 : String) (v : JVal)
    (h : ¬ k2 = k) :
    (fs ++ [(k, v)]).find? (fun p => p.1 == k2) = fs.find? (fun p => p.1 == k2) := by
  induction fs with
  | nil =>
    simp only [List.nil_append, List.find?]
    have hne : (k == k2) = false := by
      simp only [beq_eq_false_iff_ne]
      intro hc
      exact h hc.symm
    rw [hne]
  | cons p t ih =>
    by_cases hq : (p.1 == k2) = true
    · rw [List.cons_append, @List.find?_cons_of_pos _ (fun q => q.1 == k2) p _ hq,
        @List.find?_cons_of_pos _ (fun q => q.1 == k2) p _ hq]
    · rw [List.cons_append, @List.find?_cons_of_neg _ (fun q => q.1 == k2) p _ (by simpa using hq),
        @List.find?_cons_of_neg _ (fun q => q.1 == k2) p _ (by simpa using hq)]
      exact ih

theorem dget_dictInsert_self (fs : List (String × JVal)) (k : String) (v : JVal) :
    dget (dictInsert fs k v) k = some v := by
  unfold dictInsert dget
  split
  · rename_i hany
    rw [find?_map_corr fs k v hany]
    rfl
  · rename_i hany
    induction fs with
    | nil => simp [List.find?]
    | cons p t ih =>
      have hp : (p.1 == k) = false := by
        by_contra hc
        exact hany (by simp [List.any_cons, (by simpa using hc : (p.1 == k) = true)])
      have hany2 : ¬ t.any (fun p => p.1 == k) = true := by
        intro hc
        exact hany (by simp [List.any_cons, hc])
      rw [List.cons_append, List.find?_cons_of_neg _ (by simpa using hp)]
      exact ih hany2

theorem dget_dictInsert_ne (fs : List (String × JVal)) (k k2 : String) (v : JVal)
    (h : ¬ k2 = k) : dget (dictInsert fs k v) k2 = dget fs k2 := by
  unfold dictInsert dget
  split
  · rw [find?_map_corr_ne fs k k2 v h]
  · rw [find?_append_new fs k k2 v h]

/-- C8: for every parsed decision whose `next_step` is `enum4linux` or
`smbclient` and whose `target` string contains the marker `ftp`
case-insensitively, whenever validation returns a decision the validator has
rewritten `next_step` to `"ftp"` and `rationale` to the fixed text recording
the correction — a deterministic rule. -/
theorem validator_corrects_share_tools :
    ∀ (d : List (String × JVal)) (svcs : List JVal) (tgt : String)
      (d2 : List (String × JVal)) (s2 : List JVal),
      (dget d "next_step" = some (.str "enum4linux") ∨
       dget d "next_step" = some (.str "smbclient")) →
      dget d "target" = some (.str tgt) →
      lcHasSub (lcToLower tgt.data) "ftp".data = true →
      validateDecision d svcs = .ok (d2, s2) →
      dget d2 "next_step" = some (.str "ftp") ∧
      (dget d2 "rationale" = some (.str correctionEnum) ∨
       dget d2 "rationale" = some (.str correctionSmb)) := by
  intro d svcs tgt d2 s2 hns htg hftp hval
  rcases hns with hns | hns
  · have hcont : dcontains d "next_step" = true := dget_some_dcontains hns
    unfold validateDecision at hval
    rw [if_neg (by simp [hcont])] at hval
    dsimp only at hval
    have hnt : dgetD d "next_step" (JVal.str "") = JVal.str "enum4linux" := by
      unfold dgetD
      rw [hns]
      rfl
    have htg2 : dgetD d "target" (JVal.str "") = JVal.str tgt := by
      unfold dgetD
      rw [htg]
      rfl
    rw [hnt, htg2] at hval
    have hc1 : corrStep d (JVal.str "enum4linux") (JVal.str tgt) "enum4linux" correctionEnum =
        .ok (dictInsert (dictInsert d "next_step" (.str "ftp")) "rationale"
          (.str correctionEnum)) := by
      unfold corrStep
      rw [if_pos rfl]
      simp only [pyLowerJ_str, string_mk_data]
      rw [if_pos hftp]
    rw [hc1] at hval
    have hc2 : ∀ dd : List (String × JVal),
        corrStep dd (JVal.str "enum4linux") (JVal.str tgt) "smbclient" correctionSmb =
          .ok dd := by
      intro dd
      unfold corrStep
      rw [if_neg (by decide)]
    simp only [hc2] at hval
    split at hval
    · split at hval
      · exact absurd hval (by simp)
      · injection hval with hval
        injection hval with hval _
        subst hval
        refine ⟨?_, Or.inl ?_⟩
        · rw [dget_dictInsert_ne _ "rationale" "next_step" _ (by decide)]
          exact dget_dictInsert_self _ _ _
        · exact dget_dictInsert_self _ _ _
    · injection hval with hval
      injection hval with hval _
      subst hval
      refine ⟨?_, Or.inl ?_⟩
      · rw [dget_dictInsert_ne _ "rationale" "next_step" _ (by decide)]
        exact dget_dictInsert_self _ _ _
      · exact dget_dictInsert_self _ _ _
  · have hcont : dcontains d "next_step" = true := dget_some_dcontains hns
    unfold validateDecision at hval
    rw [if_neg (by simp [hcont])] at hval
    dsimp only at hval
    have hnt : dgetD d "next_step" (JVal.str "") = JVal.str "smbclient" := by
      unfold dgetD
      rw [hns]
      rfl
    have htg2 : dgetD d "target" (JVal.str "") = JVal.str tgt := by
      unfold dgetD
      rw [htg]
      rfl
    rw [hnt, htg2] at hval
    have hc1 : corrStep d (JVal.str "smbclient") (JVal.str tgt) "enum4linux" correctionEnum =
        .ok d := by
      unfold corrStep
      rw [if_neg (by decide)]
    rw [hc1] at hval
    have hc2 : corrStep d (JVal.str "smbclient") (JVal.str tgt) "smbclient" correctionSmb =
        .ok (dictInsert (dictInsert d "next_step" (.str "ftp")) "rationale"
          (.str correctionSmb)) := by
      unfold corrStep
      rw [if_pos rfl]
      simp only [pyLowerJ_str, string_mk_data]
      rw [if_pos hftp]
    simp only [hc2] at hval
    split at hval
    · split at hval
      · exact absurd hval (by simp)
      · injection hval with hval
        injection hval with hval _
        subst hval
        refine ⟨?_, Or.inr ?_⟩
        · rw [dget_dictInsert_ne _ "rationale" "next_step" _ (by decide)]
          exact dget_dictInsert_self _ _ _
        · exact dget_dictInsert_self _ _ _
    · injection hval with hval
      injection hval with hval _
      subst hval
      refine ⟨?_, Or.inr ?_⟩
      · rw [dget_dictInsert_ne _ "rationale" "next_step" _ (by decide)]
        exact dget_dictInsert_self _ _ _
      · exact dget_dictInsert_self _ _ _

/-- C2 (amended): when the first parse attempt fails with a JSON syntax error
and the retry parse succeeds, the retry's decision is returned exactly as
parsed — without the required-field check, without the tool-to-service
correction, and without merging its `discovered_services` into the state. -/
theorem retry_bypasses_validation :
    ∀ (c1 c2 tool out : String) (svcs : List JVal) (dl : List String)
      (d : List (String × JVal)),
      decodeDecision c1 = .error .malformedJson →
      retryParse c2 = some d →
      analyze (.text c1) (.text c2) tool out svcs dl = (d, svcs) := by
  intro c1 c2 tool out svcs dl d h1 h2
  unfold analyze
  simp only [h1, h2]

/-- C2, counterexample: after a malformed first reply, a retry decision naming
`enum4linux` with an `ftp` target and carrying `discovered_services` is
returned verbatim — `next_step` is not rewritten to `ftp` and the service list
stays empty — contradicting the claim that retry decisions undergo the same
validation. -/
theorem retry_decision_not_validated :
    analyze (.text "\x7bbad\x7d")
        (.text "\x7b\"next_step\": \"enum4linux\", \"target\": \"ftp:21\", \"discovered_services\": [\"21/tcp ftp\"]\x7d")
        "nmap" "scan output" [] [] =
      ([("next_step", .str "enum4linux"), ("target", .str "ftp:21"),
        ("discovered_services", .arr [.str "21/tcp ftp"])], []) ∧
    dget [("next_step", JVal.str "enum4linux"), ("target", JVal.str "ftp:21"),
        ("discovered_services", JVal.arr [JVal.str "21/tcp ftp"])] "next_step" ≠
      some (JVal.str "ftp") := by
  constructor
  · decide
  · decide

/-- C2, witness for the amended theorem at a concrete malformed first reply and
well-formed retry reply. -/
theorem retry_bypasses_validation_witness :
    decodeDecision "\x7boops\x7d" = .error .malformedJson ∧
    retryParse " \x7b\"next_step\": \"smbclient\", \"target\": \"ftp share\"\x7d " =
      some [("next_step", JVal.str "smbclient"), ("target", JVal.str "ftp share")] ∧
    analyze (.text "\x7boops\x7d")
        (.text " \x7b\"next_step\": \"smbclient\", \"target\": \"ftp share\"\x7d ")
        "ftp" "output" [JVal.str "svc"] ["f.txt"] =
      ([("next_step", JVal.str "smbclient"), ("target", JVal.str "ftp share")],
        [JVal.str "svc"]) :=
  ⟨by decide, by decide,
    retry_bypasses_validation "\x7boops\x7d"
      " \x7b\"next_step\": \"smbclient\", \"target\": \"ftp share\"\x7d " "ftp" "output"
      [JVal.str "svc"] ["f.txt"]
      [("next_step", JVal.str "smbclient"), ("target", JVal.str "ftp share")]
      (by decide) (by decide)⟩

theorem inferTool_initInstruction : inferTool initInstruction = "nmap" := by decide

/-- C3 (amended): iteration 0 records exactly one completed action, with
iteration index 0, before any decision round; its tool is `nmap` whenever the
execution model returns no structured tool call or raises (the keyword
fallback infers `nmap` from the fixed initial instruction), but a structured
tool call determines the tool name itself. -/
theorem init_records_one_action :
    ∀ (o : Oracles) (st : AgentState), runInit o = .ok st →
      st.completed.map ActionRec.iteration = [0] ∧
      (((∃ c, o.execResp 0 = .noCall c) ∨ (∃ e, o.execResp 0 = .raised e)) →
        st.completed.map ActionRec.tool = ["nmap"]) := by
  intro o st h
  unfold runInit at h
  dsimp only at h
  cases hr : o.execResp 0 with
  | toolCall n a =>
    rw [hr] at h
    dsimp only [executorAgent] at h
    split at h
    · exact absurd h (by simp)
    · injection h with h
      subst h
      refine ⟨rfl, ?_⟩
      intro hd
      rcases hd with ⟨c, hc⟩ | ⟨e, he⟩
      · exact absurd hc (by simp)
      · exact absurd he (by simp)
  | noCall c =>
    rw [hr] at h
    dsimp only [executorAgent] at h
    rw [inferTool_initInstruction] at h
    split at h
    · exact absurd h (by simp)
    · injection h with h
      subst h
      exact ⟨rfl, fun _ => rfl⟩
  | raised e =>
    rw [hr] at h
    dsimp only [executorAgent] at h
    rw [inferTool_initInstruction] at h
    split at h
    · exact absurd h (by simp)
    · injection h with h
      subst h
      exact ⟨rfl, fun _ => rfl⟩

/-- C3, counterexample: when the execution model answers the fixed initial
instruction with a structured tool call naming `gobuster`, the first recorded
completed action has tool `gobuster`, not the scanning tool — so the
iteration-0 invocation is not unconditionally `nmap`. -/
theorem init_tool_not_always_nmap :
    (runInit ⟨"10.0.0.1", fun _ => .toolCall "gobuster" [.s "dir", .s "-u", .s "http://10.0.0.1"],
        fun _ => (.raised "x", .raised "x"),
        fun _ => some (fun _ => .ok "")⟩).toOption.map
        (fun st => st.completed.map ActionRec.tool) = some ["gobuster"] ∧
    ("gobuster" : String) ≠ "nmap" := by
  constructor
  · decide
  · decide

/-- C3, witness for the amended theorem: a run whose execution model returns no
structured call records exactly `[(iteration 0, nmap)]`. -/
theorem init_records_one_action_witness :
    (AgentState.mk [] [⟨0, "nmap", [.s "-sV", .s "-sC", .s "-T4", .s "10.9.9.9"]⟩] []
        "no ports" "nmap" false).completed.map ActionRec.iteration = [0] ∧
    (AgentState.mk [] [⟨0, "nmap", [.s "-sV", .s "-sC", .s "-T4", .s "10.9.9.9"]⟩] []
        "no ports" "nmap" false).completed.map ActionRec.tool = ["nmap"] := by
  have h := init_records_one_action
    ⟨"10.9.9.9", fun _ => .noCall "", fun _ => (.raised "x", .raised "x"),
      fun _ => some (fun _ => .ok "no ports")⟩
    (AgentState.mk [] [⟨0, "nmap", [.s "-sV", .s "-sC", .s "-T4", .s "10.9.9.9"]⟩] []
      "no ports" "nmap" false)
    (by decide)
  exact ⟨h.1, h.2 (Or.inl ⟨"", rfl⟩)⟩

/-- C10: evidence for the code bug.  With the documented nested-command
argument shape for `ftp`, the wrapper's `' '.join(command)` raises `TypeError`
before the subprocess runs, `execute_tool` converts it to an error string, and
the download-tracking block is never reached: `downloaded_files` stays empty
instead of receiving `flag.txt`.  On the unpatched tools object the call does
not even get that far — building `tool_map` raises `AttributeError`. -/
theorem ftp_download_tracking_unreachable :
    executeTool (patchedTools (fun _ => ⟨true, "226 ok", ""⟩)) "ftp"
        [.s "10.129.1.14", .lst ["get flag.txt"], .s "anonymous", .s "anonymous"] [] =
      .ok ("Error executing ftp: sequence item 2: expected str instance, list found", []) ∧
    executeTool (realTools (fun _ => ⟨true, "226 ok", ""⟩)) "ftp"
        [.s "10.129.1.14", .lst ["get flag.txt"], .s "anonymous", .s "anonymous"] [] =
      .error (.attributeError "PentestingTools" "cat") := by
  constructor
  · decide
  · decide

/-! ## Membership lemmas for the extraction pipeline -/

theorem lcSplitF_mem : ∀ (fuel : Nat) (cs sep piece : List Char),
    piece ∈ lcSplitF fuel cs sep → ∀ c ∈ piece, c ∈ cs := by
  intro fuel
  induction fuel with
  | zero =>
    intro cs sep piece hp c hc
    simp only [lcSplitF, List.mem_singleton] at hp
    subst hp
    exact hc
  | succ f ih =>
    intro cs sep piece hp c hc
    simp only [lcSplitF] at hp
    split at hp
    · simp only [List.mem_singleton] at hp
      subst hp
      exact hc
    · rename_i i hi
      rcases List.mem_cons.mp hp with hp | hp
      · subst hp
        exact List.mem_of_mem_take hc
      · exact List.mem_of_mem_drop (ih _ _ _ hp c hc)

theorem lcSplit_mem {cs sep piece : List Char} (hp : piece ∈ lcSplit cs sep) :
    ∀ c ∈ piece, c ∈ cs := lcSplitF_mem _ cs sep piece hp

theorem getD_split_mem {cs sep : List Char} (n : Nat) :
    ∀ c ∈ (lcSplit cs sep).getD n [], c ∈ cs := by
  intro c hc
  rw [List.getD] at hc
  cases hg : (lcSplit cs sep).get? n with
  | none => rw [hg] at hc; simp at hc
  | some piece =>
    rw [hg] at hc
    exact lcSplit_mem (List.get?_mem hg) c hc

theorem deFence_mem {cs : List Char} : ∀ c ∈ deFence cs, c ∈ cs := by
  intro c hc
  unfold deFence at hc
  split at hc
  · exact getD_split_mem 1 c (getD_split_mem 0 c hc)
  · split at hc
    · exact getD_split_mem 1 c (getD_split_mem 0 c hc)
    · exact hc

theorem lcStrip_mem {cs : List Char} : ∀ c ∈ lcStrip cs, c ∈ cs := by
  intro c hc
  unfold lcStrip at hc
  rw [List.mem_reverse] at hc
  have h1 := (List.dropWhile_sublist pyIsSpace).mem hc
  rw [List.mem_reverse] at h1
  exact (List.dropWhile_sublist pyIsSpace).mem h1

theorem lcFindCh_eq_none {cs : List Char} {ch : Char} (h : ch ∉ cs) :
    lcFindCh cs ch = none := by
  induction cs with
  | nil => rfl
  | cons c t ih =>
    unfold lcFindCh
    rw [if_neg (fun hc => h (by rw [← hc]; exact List.mem_cons_self c t)),
      ih (fun hm => h (List.mem_cons_of_mem c hm))]
    rfl

theorem lcRfindCh_eq_none {cs : List Char} {ch : Char} (h : ch ∉ cs) :
    lcRfindCh cs ch = none := by
  unfold lcRfindCh
  rw [lcFindCh_eq_none (fun hm => h (List.mem_reverse.mp hm))]
  rfl

theorem extractCore_noJson {raw : List Char}
    (h : '\x7b' ∉ raw ∨ '\x7d' ∉ raw) : extractCore raw = .error .noJsonFound := by
  unfold extractCore
  dsimp only
  rcases h with h | h
  · rw [lcFindCh_eq_none (fun hm => h (lcStrip_mem _ (deFence_mem _ hm)))]
  · rw [lcRfindCh_eq_none (fun hm => h (lcStrip_mem _ (deFence_mem _ hm)))]
    cases hf : lcFindCh (deFence (lcStrip raw)) '\x7b' <;> rfl

/-- C7 (amended): for every input text lacking an opening brace or lacking a
closing brace, the parser raises the `NoJsonFound` failure before any decoding
is attempted, and the surrounding reasoning round absorbs it into the fallback
decision — no decoding exception reaches the caller; when both braces occur
only in closing-before-opening order, the parser instead attempts decoding of
the clamped slice and fails with `MalformedJson`. -/
theorem no_brace_is_noJsonFound :
    ∀ (raw : String) (r2 : OllamaReply) (tool out : String) (svcs : List JVal)
      (dl : List String),
      ('\x7b' ∉ raw.data ∨ '\x7d' ∉ raw.data) →
      decodeDecision raw = .error .noJsonFound ∧
      analyze (.text raw) r2 tool out svcs dl = (fallbackDecision tool out dl, svcs) := by
  intro raw r2 tool out svcs dl h
  have hd : decodeDecision raw = .error .noJsonFound := by
    unfold decodeDecision
    rw [extractCore_noJson h]
  refine ⟨hd, ?_⟩
  unfold analyze
  simp only [hd]

/-- C7, counterexample: the text `"} {"` contains no opening-then-closing brace
pair, yet the parser does not fail with `NoJsonFound`: it slices between the
brace indices and attempts decoding, failing with `MalformedJson`. -/
theorem wrong_order_braces_decode_attempted :
    hasOrderedBracePair "\x7d \x7b".data = false ∧
    '\x7b' ∈ "\x7d \x7b".data ∧ '\x7d' ∈ "\x7d \x7b".data ∧
    decodeDecision "\x7d \x7b" = .error .malformedJson := by
  refine ⟨by decide, by decide, by decide, by decide⟩

/-- C7, witness for the amended theorem at a braceless input. -/
theorem no_brace_is_noJsonFound_witness :
    decodeDecision "no json here" = .error .noJsonFound ∧
    analyze (.text "no json here") (.raised "x") "nmap" "out" [] [] =
      (fallbackDecision "nmap" "out" [], []) :=
  no_brace_is_noJsonFound "no json here" (.raised "x") "nmap" "out" [] []
    (Or.inl (by decide))

/-! ## The two `discovered_services` insertion paths -/

theorem mergeOne_nodup (acc : List JVal) (x : JVal) (h : acc.Nodup) :
    (mergeOne acc x).Nodup := by
  unfold mergeOne
  split
  · exact h
  · rename_i hc
    have hx : x ∉ acc := by
      intro hm
      exact hc (by simpa [List.contains, List.elem_iff] using hm)
    simp [List.nodup_append, h, hx]

theorem foldl_mergeOne_nodup : ∀ (xs acc : List JVal), acc.Nodup →
    (xs.foldl mergeOne acc).Nodup := by
  intro xs
  induction xs with
  | nil => intro acc h; exact h
  | cons x t ih =>
    intro acc h
    exact ih (mergeOne acc x) (mergeOne_nodup acc x h)

theorem mergeOne_mem {acc : List JVal} {x y : JVal} (h : y ∈ mergeOne acc x) :
    y ∈ acc ∨ y = x := by
  unfold mergeOne at h
  split at h
  · exact Or.inl h
  · rcases List.mem_append.mp h with h | h
    · exact Or.inl h
    · exact Or.inr (List.mem_singleton.mp h)

theorem foldl_mergeOne_mem : ∀ (xs acc : List JVal) (y : JVal),
    y ∈ xs.foldl mergeOne acc → y ∈ acc ∨ y ∈ xs := by
  intro xs
  induction xs with
  | nil => intro acc y h; exact Or.inl h
  | cons x t ih =>
    intro acc y h
    rcases ih (mergeOne acc x) y h with h2 | h2
    · rcases mergeOne_mem h2 with h3 | h3
      · exact Or.inl h3
      · exact Or.inr (h3 ▸ List.mem_cons_self x t)
    · exact Or.inr (List.mem_cons_of_mem x h2)

theorem foldl_append_filter_map {α β : Type} (p : α → Bool) (f : α → β) :
    ∀ (xs : List α) (init : List β),
      xs.foldl (fun acc x => if p x then acc ++ [f x] else acc) init =
        init ++ (xs.filter p).map f := by
  intro xs
  induction xs with
  | nil => intro init; simp
  | cons x t ih =>
    intro init
    by_cases hp : p x = true
    · simp [List.foldl_cons, hp, ih, List.filter_cons]
    · simp [List.foldl_cons, hp, ih, List.filter_cons]

/-- C4 (amended): the two insertion paths into `discovered_services` differ.
The validator's merge preserves insertion order, appends only entries produced
by the decision's list, and never appends an entry already present (duplicates
suppressed); the iteration-0 raw-output parse preserves order but appends
every `/tcp`-or-`/udp` line, with no duplicate suppression. -/
theorem services_insertion_paths :
    (∀ (xs svcs r : List JVal), mergeServices (.arr xs) svcs = .ok r →
      listGrows svcs r ∧ (svcs.Nodup → r.Nodup) ∧ ∀ y ∈ r, y ∈ svcs ∨ y ∈ xs) ∧
    (∀ result : String, lcHasSub (lcToLower result.data) "open".data = true →
      parseServices result =
        ((lcSplit result.data "\n".data).filter
          (fun l => lcHasSub l "/tcp".data || lcHasSub l "/udp".data)).map
          (fun l => JVal.str (String.mk (lcStrip l)))) := by
  constructor
  · intro xs svcs r h
    unfold mergeServices at h
    injection h with h
    subst h
    refine ⟨foldl_listGrows _ mergeOne_grows _ _, foldl_mergeOne_nodup _ _, ?_⟩
    intro y hy
    exact foldl_mergeOne_mem xs svcs y hy
  · intro result hopen
    unfold parseServices
    rw [if_pos hopen]
    exact foldl_append_filter_map _ _ _ []

/-- C4, counterexample: an iteration-0 scan result repeating the same open-port
line makes the loop's raw-output parse append the identical service descriptor
twice — an entry already present is appended again, contradicting the claim
that every insertion path suppresses duplicates. -/
theorem services_duplicated_by_parse :
    (runInit ⟨"10.0.0.1", fun _ => .noCall "", fun _ => (.raised "x", .raised "x"),
        fun _ => some (fun _ => .ok "22/tcp open ssh\n22/tcp open ssh")⟩).toOption.map
        AgentState.services =
      some [JVal.str "22/tcp open ssh", JVal.str "22/tcp open ssh"] ∧
    ¬ ([JVal.str "22/tcp open ssh", JVal.str "22/tcp open ssh"] : List JVal).Nodup := by
  refine ⟨by decide, by decide⟩

/-- C4, witness for the amended theorem: the merge path at a concrete decision
list with a duplicate, and the parse path at a concrete scan result. -/
theorem services_insertion_paths_witness :
    (listGrows [JVal.str "b"] [JVal.str "b", JVal.str "a"] ∧
      (([JVal.str "b"] : List JVal).Nodup → ([JVal.str "b", JVal.str "a"] : List JVal).Nodup) ∧
      ∀ y ∈ ([JVal.str "b", JVal.str "a"] : List JVal),
        y ∈ ([JVal.str "b"] : List JVal) ∨ y ∈ ([JVal.str "a", JVal.str "b", JVal.str "a"] : List JVal)) ∧
    parseServices "21/tcp open ftp" =
      ((lcSplit "21/tcp open ftp".data "\n".data).filter
        (fun l => lcHasSub l "/tcp".data || lcHasSub l "/udp".data)).map
        (fun l => JVal.str (String.mk (lcStrip l))) :=
  ⟨services_insertion_paths.1 [JVal.str "a", JVal.str "b", JVal.str "a"] [JVal.str "b"]
      [JVal.str "b", JVal.str "a"] (by decide),
    services_insertion_paths.2 "21/tcp open ftp" (by decide)⟩

/-- C9, witness: the monotonicity theorem applied to a concrete two-round run
whose decision source keeps answering `continue`. -/
theorem enumerationState_monotone_witness :
    runN ⟨"10.0.0.1", fun _ => .noCall "", fun _ =>
        (.text "\x7b\"next_step\": \"nmap\", \"status\": \"continue\"\x7d", .raised "x"),
      fun _ => some (fun _ => .ok "21/tcp open ftp")⟩ 0 =
      .ok (AgentState.mk [JVal.str "21/tcp open ftp"]
        [⟨0, "nmap", [.s "-sV", .s "-sC", .s "-T4", .s "10.0.0.1"]⟩] []
        "21/tcp open ftp" "nmap" false) ∧
    runN ⟨"10.0.0.1", fun _ => .noCall "", fun _ =>
        (.text "\x7b\"next_step\": \"nmap\", \"status\": \"continue\"\x7d", .raised "x"),
      fun _ => some (fun _ => .ok "21/tcp open ftp")⟩ 1 =
      .ok (AgentState.mk [JVal.str "21/tcp open ftp"]
        [⟨0, "nmap", [.s "-sV", .s "-sC", .s "-T4", .s "10.0.0.1"]⟩,
         ⟨1, "nmap", [.s "-sV", .s "-sC", .s "-T4", .s "10.0.0.1"]⟩] []
        "21/tcp open ftp" "nmap" false) ∧
    (listGrows [JVal.str "21/tcp open ftp"] [JVal.str "21/tcp open ftp"] ∧
      listGrows [(⟨0, "nmap", [.s "-sV", .s "-sC", .s "-T4", .s "10.0.0.1"]⟩ : ActionRec)]
        [⟨0, "nmap", [.s "-sV", .s "-sC", .s "-T4", .s "10.0.0.1"]⟩,
         ⟨1, "nmap", [.s "-sV", .s "-sC", .s "-T4", .s "10.0.0.1"]⟩] ∧
      listGrows ([] : List String) []) :=
  ⟨by decide, by decide,
    enumerationState_monotone
      ⟨"10.0.0.1", fun _ => .noCall "", fun _ =>
        (.text "\x7b\"next_step\": \"nmap\", \"status\": \"continue\"\x7d", .raised "x"),
        fun _ => some (fun _ => .ok "21/tcp open ftp")⟩ 0 1
      (AgentState.mk [JVal.str "21/tcp open ftp"]
        [⟨0, "nmap", [.s "-sV", .s "-sC", .s "-T4", .s "10.0.0.1"]⟩] []
        "21/tcp open ftp" "nmap" false)
      (AgentState.mk [JVal.str "21/tcp open ftp"]
        [⟨0, "nmap", [.s "-sV", .s "-sC", .s "-T4", .s "10.0.0.1"]⟩,
         ⟨1, "nmap", [.s "-sV", .s "-sC", .s "-T4", .s "10.0.0.1"]⟩] []
        "21/tcp open ftp" "nmap" false)
      (by decide) (by decide) (by decide)⟩

/-- C8, witness: the correction theorem applied to a concrete `enum4linux`
decision with an upper-case `FTP` target. -/
theorem validator_corrects_share_tools_witness :
    dget [("next_step", JVal.str "ftp"), ("target", JVal.str "FTP:21"),
        ("rationale", JVal.str correctionEnum)] "next_step" = some (JVal.str "ftp") ∧
    (dget [("next_step", JVal.str "ftp"), ("target", JVal.str "FTP:21"),
        ("rationale", JVal.str correctionEnum)] "rationale" = some (JVal.str correctionEnum) ∨
     dget [("next_step", JVal.str "ftp"), ("target", JVal.str "FTP:21"),
        ("rationale", JVal.str correctionEnum)] "rationale" = some (JVal.str correctionSmb)) :=
  validator_corrects_share_tools
    [("next_step", JVal.str "enum4linux"), ("target", JVal.str "FTP:21")] [] "FTP:21"
    [("next_step", JVal.str "ftp"), ("target", JVal.str "FTP:21"),
      ("rationale", JVal.str correctionEnum)] []
    (Or.inl (by decide)) (by decide) (by decide) (by decide)

/-! ## Structure of the brace slice on well-shaped inputs -/

theorem isPrefixOf_mem : ∀ {l1 l2 : List Char}, l1.isPrefixOf l2 = true → ∀ c ∈ l1, c ∈ l2 := by
  intro l1
  induction l1 with
  | nil => intro l2 h c hc; simp at hc
  | cons x t ih =>
    intro l2 h c hc
    cases l2 with
    | nil => simp [List.isPrefixOf] at h
    | cons y s =>
      simp only [List.isPrefixOf, Bool.and_eq_true] at h
      rcases List.mem_cons.mp hc with hc | hc
      · subst hc
        rw [show c = y from by simpa using h.1]
        exact List.mem_cons_self y s
      · exact List.mem_cons_of_mem y (ih h.2 c hc)

theorem lcHasSub_subset : ∀ (hay pat : List Char), lcHasSub hay pat = true →
    ∀ c ∈ pat, c ∈ hay := by
  intro hay
  induction hay with
  | nil =>
    intro pat h c hc
    unfold lcHasSub at h
    rw [List.isEmpty_iff] at h
    subst h
    simp at hc
  | cons x t ih =>
    intro pat h c hc
    unfold lcHasSub at h
    rw [Bool.or_eq_true] at h
    rcases h with h | h
    · exact isPrefixOf_mem h c hc
    · exact List.mem_cons_of_mem x (ih pat h c hc)

theorem lcHasSub_false_of_not_mem {hay pat : List Char} {ch : Char}
    (hm : ch ∈ pat) (h : ch ∉ hay) : lcHasSub hay pat = false := by
  by_contra hc
  exact h (lcHasSub_subset hay pat (by simpa using hc) ch hm)

theorem dropWhile_append_of_head {α : Type} (p : α → Bool) (pre rest : List α) (a : α)
    (ha : rest.head? = some a) (hpa : p a = false) :
    (pre ++ rest).dropWhile p = pre.dropWhile p ++ rest := by
  induction pre with
  | nil =>
    cases rest with
    | nil => simp at ha
    | cons r t =>
      have hr : r = a := by simpa using ha
      subst hr
      simp [List.dropWhile_cons, hpa]
  | cons x xs ih =>
    by_cases hx : p x = true
    · simpa [List.dropWhile_cons, hx] using ih
    · simp [List.dropWhile_cons, hx]

theorem head?_append_left {α : Type} {l : List α} (l2 : List α) {a : α}
    (h : l.head? = some a) : (l ++ l2).head? = some a := by
  cases l with
  | nil => simp at h
  | cons x t => simpa using h

theorem lcStrip_decompose (pre obj post : List Char) (a b : Char)
    (hhead : obj.head? = some a) (hlast : obj.getLast? = some b)
    (hsa : pyIsSpace a = false) (hsb : pyIsSpace b = false) :
    ∃ pre1 post1, lcStrip (pre ++ obj ++ post) = pre1 ++ obj ++ post1 ∧
      (∀ c ∈ pre1, c ∈ pre) ∧ (∀ c ∈ post1, c ∈ post) := by
  refine ⟨pre.dropWhile pyIsSpace, (post.reverse.dropWhile pyIsSpace).reverse, ?_, ?_, ?_⟩
  · unfold lcStrip
    have h1 : (pre ++ obj ++ post).dropWhile pyIsSpace =
        pre.dropWhile pyIsSpace ++ (obj ++ post) := by
      rw [List.append_assoc]
      exact dropWhile_append_of_head pyIsSpace pre (obj ++ post) a
        (head?_append_left post hhead) hsa
    rw [h1]
    have h2 : (pre.dropWhile pyIsSpace ++ (obj ++ post)).reverse =
        post.reverse ++ (obj.reverse ++ (pre.dropWhile pyIsSpace).reverse) := by
      simp [List.reverse_append]
    rw [h2]
    have hro : obj.reverse.head? = some b := by
      rw [List.head?_reverse]
      exact hlast
    have h3 : (post.reverse ++ (obj.reverse ++ (pre.dropWhile pyIsSpace).reverse)).dropWhile
        pyIsSpace =
        post.reverse.dropWhile pyIsSpace ++ (obj.reverse ++ (pre.dropWhile pyIsSpace).reverse) :=
      dropWhile_append_of_head pyIsSpace post.reverse _ b
        (head?_append_left _ hro) hsb
    rw [h3]
    simp [List.reverse_append, List.append_assoc]
  · intro c hc
    exact (List.dropWhile_sublist pyIsSpace).mem hc
  · intro c hc
    rw [List.mem_reverse] at hc
    have := (List.dropWhile_sublist pyIsSpace).mem hc
    rw [List.mem_reverse] at this
    exact this

theorem lcFindCh_append_of_not_mem (xs rest : List Char) (ch : Char)
    (h : ch ∉ xs) : lcFindCh (xs ++ rest) ch = (lcFindCh rest ch).map (· + xs.length) := by
  induction xs with
  | nil =>
    simp only [List.nil_append, List.length_nil]
    cases lcFindCh rest ch <;> simp
  | cons x t ih =>
    have hx : ¬ x = ch := fun hc => h (by rw [hc]; exact List.mem_cons_self ch t)
    have ht : ch ∉ t := fun hm => h (List.mem_cons_of_mem x hm)
    have hstep : lcFindCh (x :: t ++ rest) ch = (lcFindCh (t ++ rest) ch).map (· + 1) := by
      simp only [List.cons_append, lcFindCh, if_neg hx]
      rfl
    rw [List.cons_append] at hstep
    rw [show x :: t ++ rest = x :: (t ++ rest) from List.cons_append x t rest, hstep,
      ih ht, List.length_cons]
    cases hk : lcFindCh rest ch with
    | none => simp
    | some k => simp [Nat.add_assoc]

/-- C6 (amended): the parser extracts the fenced segment's inner content when a
fence is present and otherwise slices from the first opening brace to the last
closing brace; this slice is exactly the contained well-formed JSON object —
and decodes to it — provided no stray opening brace precedes the object, no
stray closing brace follows it, and the text carries no backticks outside a
proper fence.  The second conjunct checks the fenced shape on the spec's own
example. -/
theorem parser_extracts_object :
    (∀ (pre obj post : List Char) (fs : List (String × JVal)),
      '\x7b' ∉ pre → '\x7d' ∉ post →
      '\x60' ∉ pre → '\x60' ∉ obj → '\x60' ∉ post →
      obj.head? = some '\x7b' → obj.getLast? = some '\x7d' →
      jsonLoadsL obj = some (.obj fs) →
      extractCore (pre ++ obj ++ post) = .ok obj ∧
      decodeDecision (String.mk (pre ++ obj ++ post)) = .ok fs) ∧
    decodeDecision "Here you go: ```json\n\x7b\"next_step\": \"nmap\", \"status\": \"continue\"\x7d\n```" =
      .ok [("next_step", .str "nmap"), ("status", .str "continue")] := by
  constructor
  · intro pre obj post fs hbpre hbpost hgpre hgobj hgpost hhead hlast hload
    obtain ⟨pre1, post1, hstrip, hsub1, hsub2⟩ :=
      lcStrip_decompose pre obj post '\x7b' '\x7d' hhead hlast (by decide) (by decide)
    have hp1 : '\x7b' ∉ pre1 := fun hm => hbpre (hsub1 _ hm)
    have hp2 : '\x7d' ∉ post1 := fun hm => hbpost (hsub2 _ hm)
    have hg : '\x60' ∉ pre1 ++ obj ++ post1 := by
      intro hm
      rcases List.mem_append.mp hm with hm | hm
      · rcases List.mem_append.mp hm with hm | hm
        · exact hgpre (hsub1 _ hm)
        · exact hgobj hm
      · exact hgpost (hsub2 _ hm)
    have hfj : lcHasSub (pre1 ++ obj ++ post1) fenceJson = false :=
      lcHasSub_false_of_not_mem (by decide) hg
    have hfb : lcHasSub (pre1 ++ obj ++ post1) fenceBare = false :=
      lcHasSub_false_of_not_mem (by decide) hg
    have hdf : deFence (lcStrip (pre ++ obj ++ post)) = pre1 ++ obj ++ post1 := by
      rw [hstrip]
      unfold deFence
      rw [hfj, hfb]
      rfl
    have hlen : 0 < obj.length := by
      cases obj with
      | nil => simp at hhead
      | cons c t => simp
    have hfind : lcFindCh (pre1 ++ obj ++ post1) '\x7b' = some pre1.length := by
      rw [List.append_assoc, lcFindCh_append_of_not_mem pre1 (obj ++ post1) _ hp1]
      cases obj with
      | nil => simp at hhead
      | cons c t =>
        have hc : c = '\x7b' := by simpa using hhead
        subst hc
        simp [lcFindCh]
    have hrfind : lcRfindCh (pre1 ++ obj ++ post1) '\x7d' =
        some (pre1.length + obj.length - 1) := by
      unfold lcRfindCh
      have hrev : (pre1 ++ obj ++ post1).reverse =
          post1.reverse ++ (obj.reverse ++ pre1.reverse) := by
        simp [List.reverse_append]
      rw [hrev, lcFindCh_append_of_not_mem post1.reverse _ _
        (fun hm => hp2 (List.mem_reverse.mp hm))]
      have hor : obj.reverse.head? = some '\x7d' := by
        rw [List.head?_reverse]
        exact hlast
      have hlen2 : obj.reverse.length = obj.length := List.length_reverse obj
      cases hoe : obj.reverse with
      | nil => rw [hoe] at hor; simp at hor
      | cons r rt =>
        rw [hoe] at hor
        have hr : r = '\x7d' := by simpa using hor
        subst hr
        have hfc : lcFindCh ('\x7d' :: rt ++ pre1.reverse) '\x7d' = some 0 := by
          simp [lcFindCh]
        rw [hfc]
        have hlen3 : obj.length = rt.length + 1 := by
          rw [← hlen2, hoe]
          simp
        simp only [Option.map_some', List.length_reverse, List.length_append]
        congr 1
        omega
    have hslice : pySliceToIncl (pre1 ++ obj ++ post1) pre1.length
        (pre1.length + obj.length - 1) = obj := by
      unfold pySliceToIncl
      rw [List.append_assoc, List.drop_left]
      have h2 : pre1.length + obj.length - 1 + 1 - pre1.length = obj.length := by omega
      rw [h2, List.take_left]
    have hext : extractCore (pre ++ obj ++ post) = .ok obj := by
      unfold extractCore
      dsimp only
      rw [hdf, hfind, hrfind]
      dsimp only
      rw [hslice]
    refine ⟨hext, ?_⟩
    unfold decodeDecision
    rw [string_mk_data, hext]
    dsimp only
    rw [hload]
  · decide

/-- C6, counterexample: the text `x{y {"a":1}` contains exactly one well-formed
JSON object substring, `{"a":1}`, yet the parser slices from the stray first
opening brace to the last closing brace and fails to decode — it does not
extract that object, contradicting the claim for all texts containing a single
well-formed object. -/
theorem parser_misses_object_after_stray_brace :
    tightObjectSubstrings "x\x7by \x7b\"a\":1\x7d".data = ["\x7b\"a\":1\x7d".data] ∧
    decodeDecision "x\x7by \x7b\"a\":1\x7d" = .error .malformedJson := by
  constructor
  · decide
  · decide

/-- C6, witness for the amended theorem at a concrete prose-wrapped object. -/
theorem parser_extracts_object_witness :
    extractCore ("Reply: ".data ++ "\x7b\"a\": 1\x7d".data ++ " end".data) =
      .ok "\x7b\"a\": 1\x7d".data ∧
    decodeDecision (String.mk ("Reply: ".data ++ "\x7b\"a\": 1\x7d".data ++ " end".data)) =
      .ok [("a", JVal.num "1")] :=
  parser_extracts_object.1 "Reply: ".data "\x7b\"a\": 1\x7d".data " end".data
    [("a", JVal.num "1")] (by decide) (by decide) (by decide) (by decide) (by decide)
    (by decide) (by decide) (by decide)
